import Mathlib

/-!
Verification of the go-config core components against their source.

Part 1 embeds pkg/debounce/debounce.go: each of the four constructors
(New, NewGrouped, NewLast, NewCounted) spawns a goroutine running a
select loop over the input channel, an interval timer and a max-delay
timer.  We embed each loop body as a step function on an explicit state,
driven by a timestamped trace of loop occurrences (input value received,
input closed, interval timer fired, max-delay timer fired).  Timer state
is tracked as: `intervalArmed : Bool` (the one-shot interval timer is
armed and has not fired), and `maxDeadline : Option Nat` (the absolute
deadline of the armed max-delay timer, `none` when unarmed).  A fired or
cleared one-shot timer can no longer deliver, so firing disarms it in
the model.  Channel sends are collected into an output list tagged with
the emission time.

Part 2 embeds the watcher loop of pkg/watch (FileWatcher.run and its
handlers), with file identities abstracted as natural numbers and each
raw notification carrying the oracle results of the stat calls the
handler performs.  Paths are lists of segments from the filesystem root;
`filepath.Dir` is `List.dropLast` (the parent of the root is the root).
-/

/-- One occurrence the debounce select loop can wake up on: a value
received from the input channel, the input channel found closed, the
interval timer fired, or the max-delay timer fired. -/
inductive DEvent (α : Type) where
  | recv (v : α)
  | closed
  | intervalFire
  | maxFire
deriving DecidableEq

/-- State of the goroutine of debounce.New: the `pending` flag, whether
the interval timer is armed, and the absolute deadline of the max-delay
timer when armed. -/
structure SigState where
  pending : Bool
  intervalArmed : Bool
  maxDeadline : Option Nat
deriving DecidableEq

/-- State of the goroutine of debounce.NewGrouped. -/
structure GState (α : Type) where
  pending : List α
  intervalArmed : Bool
  maxDeadline : Option Nat
deriving DecidableEq

/-- State of the goroutine of debounce.NewLast; `none` models the Go
nil interface value of `last`. -/
structure LState (α : Type) where
  last : Option α
  intervalArmed : Bool
  maxDeadline : Option Nat
deriving DecidableEq

/-- State of the goroutine of debounce.NewCounted. -/
structure CState where
  count : Nat
  intervalArmed : Bool
  maxDeadline : Option Nat
deriving DecidableEq

/-- debounceTimers.setMaxDelay: arm the max-delay timer for `maxDelay`
from now only if it is not already armed and `maxDelay != 0`. -/
def setMaxDelay (maxDelay t : Nat) : Option Nat → Option Nat
  | none => if maxDelay ≠ 0 then some (t + maxDelay) else none
  | some d => some d

/-- Select-loop body of debounce.New, at time `t`.  On receive: clear
and reset the interval timer, set `pending`, arm the max-delay timer if
unarmed.  On interval fire: emit one Event, clear `pending` and the
max-delay timer (the fired one-shot interval timer is spent).  On
max-delay fire: emit one Event only if `pending`, then clear both
timers.  `closed` is handled by the loop runner, not here. -/
def newStep {α : Type} (maxDelay : Nat) (s : SigState) (t : Nat) :
    DEvent α → SigState × List (Nat × Unit)
  | .recv _ => (⟨true, true, setMaxDelay maxDelay t s.maxDeadline⟩, [])
  | .closed => (s, [])
  | .intervalFire =>
    if s.intervalArmed then (⟨false, false, none⟩, [(t, ())]) else (s, [])
  | .maxFire =>
    if s.maxDeadline.isSome then
      (⟨false, false, none⟩, if s.pending then [(t, ())] else [])
    else (s, [])

/-- Tail of the goroutine of debounce.New after the loop exits on a
closed input: emit one final Event if `pending`. -/
def newFinal (s : SigState) (t : Nat) : List (Nat × Unit) :=
  if s.pending then [(t, ())] else []

/-- Select-loop body of debounce.NewGrouped, at time `t`.  On receive:
append to `pending`.  On either timer fire: emit the whole `pending`
list unconditionally and reset it to nil. -/
def groupedStep {α : Type} (maxDelay : Nat) (s : GState α) (t : Nat) :
    DEvent α → GState α × List (Nat × List α)
  | .recv v => (⟨s.pending ++ [v], true, setMaxDelay maxDelay t s.maxDeadline⟩, [])
  | .closed => (s, [])
  | .intervalFire =>
    if s.intervalArmed then (⟨[], false, none⟩, [(t, s.pending)]) else (s, [])
  | .maxFire =>
    if s.maxDeadline.isSome then (⟨[], false, none⟩, [(t, s.pending)]) else (s, [])

/-- Tail of the goroutine of debounce.NewGrouped: emit `pending` only
if it is non-empty. -/
def groupedFinal {α : Type} (s : GState α) (t : Nat) : List (Nat × List α) :=
  if s.pending.isEmpty then [] else [(t, s.pending)]

/-- Select-loop body of debounce.NewLast, at time `t`.  On receive:
overwrite `last`.  On interval fire: emit `last` unconditionally and
reset it to nil.  On max-delay fire: emit `last` only if non-nil, then
reset it and clear both timers. -/
def lastStep {α : Type} (maxDelay : Nat) (s : LState α) (t : Nat) :
    DEvent α → LState α × List (Nat × Option α)
  | .recv v => (⟨some v, true, setMaxDelay maxDelay t s.maxDeadline⟩, [])
  | .closed => (s, [])
  | .intervalFire =>
    if s.intervalArmed then (⟨none, false, none⟩, [(t, s.last)]) else (s, [])
  | .maxFire =>
    if s.maxDeadline.isSome then
      (⟨none, false, none⟩, if s.last.isSome then [(t, s.last)] else [])
    else (s, [])

/-- Tail of the goroutine of debounce.NewLast: emit `last` only if it
is non-nil. -/
def lastFinal {α : Type} (s : LState α) (t : Nat) : List (Nat × Option α) :=
  if s.last.isSome then [(t, s.last)] else []

/-- Select-loop body of debounce.NewCounted, at time `t`.  On receive:
increment `count`.  On either timer fire: emit `count` unconditionally
and reset it to zero. -/
def countedStep {α : Type} (maxDelay : Nat) (s : CState) (t : Nat) :
    DEvent α → CState × List (Nat × Nat)
  | .recv _ => (⟨s.count + 1, true, setMaxDelay maxDelay t s.maxDeadline⟩, [])
  | .closed => (s, [])
  | .intervalFire =>
    if s.intervalArmed then (⟨0, false, none⟩, [(t, s.count)]) else (s, [])
  | .maxFire =>
    if s.maxDeadline.isSome then (⟨0, false, none⟩, [(t, s.count)]) else (s, [])

/-- Tail of the goroutine of debounce.NewCounted: emit `count` only if
it is non-zero. -/
def countedFinal (s : CState) (t : Nat) : List (Nat × Nat) :=
  if s.count ≠ 0 then [(t, s.count)] else []

/-- The shared `for/select` loop shape of all four goroutines: process
the trace with the variant's step function; at the first `closed`
occurrence run the variant's final flush, close the output (the Bool
component) and stop.  Returns the emitted outputs with their emission
times, whether the output channel was closed, and the last state. -/
def runD {α σ β : Type} (step : σ → Nat → DEvent α → σ × List (Nat × β))
    (final : σ → Nat → List (Nat × β)) :
    σ → List (Nat × DEvent α) → List (Nat × β) × Bool × σ
  | s, [] => ([], false, s)
  | s, (t, DEvent.closed) :: _ => (final s t, true, s)
  | s, (t, e) :: tr =>
    let p := step s t e
    let r := runD step final p.1 tr
    (p.2 ++ r.1, r.2.1, r.2.2)

/-- Initial state of the goroutine of debounce.New
(`var pending bool`, no timers armed). -/
def newInit : SigState := ⟨false, false, none⟩

/-- Initial state of the goroutine of debounce.NewGrouped. -/
def groupedInit {α : Type} : GState α := ⟨[], false, none⟩

/-- Initial state of the goroutine of debounce.NewLast. -/
def lastInit {α : Type} : LState α := ⟨none, false, none⟩

/-- Initial state of the goroutine of debounce.NewCounted. -/
def countedInit : CState := ⟨0, false, none⟩

/-- The worker spawned by debounce.New, as a trace function. -/
def runNew {α : Type} (maxDelay : Nat) (s : SigState)
    (tr : List (Nat × DEvent α)) : List (Nat × Unit) × Bool × SigState :=
  runD (newStep maxDelay) newFinal s tr

/-- The worker spawned by debounce.NewGrouped, as a trace function. -/
def runGrouped {α : Type} (maxDelay : Nat) (s : GState α)
    (tr : List (Nat × DEvent α)) : List (Nat × List α) × Bool × GState α :=
  runD (groupedStep maxDelay) groupedFinal s tr

/-- The worker spawned by debounce.NewLast, as a trace function. -/
def runLast {α : Type} (maxDelay : Nat) (s : LState α)
    (tr : List (Nat × DEvent α)) : List (Nat × Option α) × Bool × LState α :=
  runD (lastStep maxDelay) lastFinal s tr

/-- The worker spawned by debounce.NewCounted, as a trace function. -/
def runCounted {α : Type} (maxDelay : Nat) (s : CState)
    (tr : List (Nat × DEvent α)) : List (Nat × Nat) × Bool × CState :=
  runD (countedStep maxDelay) countedFinal s tr

/-- Promptness of a trace with respect to the max-delay deadline: at
every loop wake-up (the closed occurrence included) the wake-up time is
no later than the currently armed max-delay deadline.  This is the
timing assumption under which an armed Go timer is serviced by its
deadline; it fails only when the worker is stalled by a blocked output
send past a deadline. -/
def promptD {α σ β : Type} (deadline : σ → Option Nat)
    (step : σ → Nat → DEvent α → σ × List (Nat × β)) :
    σ → List (Nat × DEvent α) → Bool
  | _, [] => true
  | s, (t, e) :: tr =>
    (match deadline s with
     | none => true
     | some d => decide (t ≤ d)) &&
    (match e with
     | DEvent.closed => true
     | e => promptD deadline step (step s t e).1 tr)

/-- Whether a trace contains a `closed` occurrence, i.e. the input
channel is eventually closed. -/
def containsClosed {α : Type} : List (Nat × DEvent α) → Bool
  | [] => false
  | (_, DEvent.closed) :: _ => true
  | _ :: tr => containsClosed tr

/-- The values received from the input channel before it is closed, in
arrival order. -/
def recvsBefore {α : Type} : List (Nat × DEvent α) → List α
  | [] => []
  | (_, DEvent.closed) :: _ => []
  | (_, DEvent.recv v) :: tr => v :: recvsBefore tr
  | _ :: tr => recvsBefore tr

/-- Watch event types of pkg/watch (Created, Updated, Deleted). -/
inductive EventType where
  | Created
  | Updated
  | Deleted
deriving DecidableEq

/-- A raw fsnotify notification as the watchloop dispatches it, with
the oracle results of the stat calls the corresponding branch performs.
`removeEv`/`createEv` carry the result of `os.Stat(w.filename)` done by
the handler; `modifyEv` carries the result of `os.Stat(ev.Name)` (the
path named by the notification) and of `os.Stat(w.filename)` (used by
handleEvent when the update is accepted).  File identities are
abstracted as natural numbers; `none` is a failed stat (absent file).
The remove / create / other classification mirrors the if/else chain on
`ev.Op` bits in FileWatcher.run. -/
inductive RawEvent where
  | removeEv (statF : Option Nat)
  | createEv (statF : Option Nat)
  | modifyEv (evStat : Option Nat) (statF : Option Nat)
  | errorEv
  | cancelEv
deriving DecidableEq

/-- Loop control after dispatching one notification: continue the
watchloop, break out of it (re-resolve the location), or halt the
worker (cancellation observed; the update channel is closed). -/
inductive Ctl where
  | cont
  | brk
  | halt
deriving DecidableEq

/-- os.SameFile on our abstract identities: two stat results denote the
same file when both succeeded and the identities agree; a nil FileInfo
is never the same file as anything. -/
def sameFile : Option Nat → Option Nat → Bool
  | some a, some b => a == b
  | _, _ => false

/-- FileWatcher.handleEvent: re-stat the watched filename into
`w.fileInfo` and send Updated. -/
def handleEvent (statF : Option Nat) : Option Nat × List EventType :=
  (statF, [EventType.Updated])

/-- FileWatcher.handleCreateEvent: re-stat the watched filename; if a
file is now present and none was observed before, record it and send
Created. -/
def handleCreateEvent (fi statF : Option Nat) : Option Nat × List EventType :=
  match statF, fi with
  | some n, none => (some n, [EventType.Created])
  | _, _ => (fi, [])

/-- FileWatcher.handleDeleteEvent: re-stat the watched filename; if the
file is now absent and one was observed before, clear the observation
and send Deleted. -/
def handleDeleteEvent (fi statF : Option Nat) : Option Nat × List EventType :=
  match statF, fi with
  | none, some _ => (none, [EventType.Deleted])
  | _, _ => (fi, [])

/-- One iteration of the watchloop in FileWatcher.run.  `targetStat` is
the identity snapshot `os.Stat(target)` taken at the top of the outer
loop; `targetIsFilename` is whether the resolved watch target equals
`w.filename`; `fi` is the current `w.fileInfo`.  Remove-class events
run handleDeleteEvent then break unconditionally; create-class events
run handleCreateEvent then break unless the target is the filename;
other events are accepted only when `os.SameFile(targetStat, evStat)`
holds, then either break (target not yet the filename) or run
handleEvent; subsystem errors break; cancellation halts. -/
def dispatchEvent (targetStat : Option Nat) (targetIsFilename : Bool)
    (fi : Option Nat) : RawEvent → Option Nat × List EventType × Ctl
  | .removeEv statF =>
    let r := handleDeleteEvent fi statF
    (r.1, r.2, Ctl.brk)
  | .createEv statF =>
    let r := handleCreateEvent fi statF
    (r.1, r.2, if targetIsFilename then Ctl.cont else Ctl.brk)
  | .modifyEv evStat statF =>
    if sameFile targetStat evStat then
      if targetIsFilename then
        let r := handleEvent statF
        (r.1, r.2, Ctl.cont)
      else (fi, [], Ctl.brk)
    else (fi, [], Ctl.cont)
  | .errorEv => (fi, [], Ctl.brk)
  | .cancelEv => (fi, [], Ctl.halt)

/-- The watchloop of one outer-loop iteration of FileWatcher.run,
dispatching a list of raw notifications until one of them breaks or
halts.  Returns the sent events in order, the final `w.fileInfo`, and
how the loop ended (`Ctl.cont` means the notification list was
exhausted with the loop still running). -/
def innerLoop (targetStat : Option Nat) (targetIsFilename : Bool) :
    Option Nat → List RawEvent → List EventType × Option Nat × Ctl
  | fi, [] => ([], fi, Ctl.cont)
  | fi, e :: evs =>
    let r := dispatchEvent targetStat targetIsFilename fi e
    match r.2.2 with
    | Ctl.cont =>
      let rest := innerLoop targetStat targetIsFilename r.1 evs
      (r.2.1 ++ rest.1, rest.2)
    | c => (r.2.1, r.1, c)

/-- A filesystem path, as the list of its segments below the root; the
root itself is `[]`.  `filepath.Dir` is `List.dropLast` (the parent of
the root is the root itself). -/
def parentDir (p : List String) : List String := p.dropLast

/-- The loop of watchLocation in pkg/watch, with explicit fuel: walk
upward from `watchPath` until an existing directory is found, keeping
`watchTarget` one level below it; `dirs` is the stat oracle (true on
paths that currently exist as directories).  `none` models the
non-terminating walk that arises when not even the root is a
directory. -/
def watchLocationFuel (dirs : List String → Bool) :
    Nat → List String → List String → Option (List String × List String)
  | 0, _, _ => none
  | fuel + 1, watchPath, watchTarget =>
    if dirs watchPath then some (watchPath, watchTarget)
    else watchLocationFuel dirs fuel (parentDir watchPath) watchPath

/-- watchLocation in pkg/watch: resolve the nearest existing ancestor
directory of `path` and the next path component toward `path`.  The
walk visits at most every ancestor of `path` once, so `length + 1`
steps of fuel suffice whenever it terminates at all. -/
def watchLocation (dirs : List String → Bool) (path : List String) :
    Option (List String × List String) :=
  watchLocationFuel dirs (path.length + 1) path path

/-- The loop of FileWatcher.watchParents, with explicit fuel: walk from
`path` to the filesystem root, collecting every proper ancestor (each
is registered with the fsnotify watcher); stop when `Dir(path)` no
longer changes the path. -/
def watchParentsFuel : Nat → List String → Option (List (List String))
  | 0, _ => none
  | fuel + 1, path =>
    let next := parentDir path
    if next = path then some []
    else
      match watchParentsFuel fuel next with
      | some rest => some (next :: rest)
      | none => none

/-- FileWatcher.watchParents as a function of the starting path: the
walk strictly shortens the path each step, so `length + 1` steps of
fuel suffice. -/
def watchParents (path : List String) : Option (List (List String)) :=
  watchParentsFuel (path.length + 1) path

/-- Simulation relation between the four debounce worker states driven
by the same input schedule: the Signal flag, the Last value and the
Counted counter are respectively the non-emptiness, the last element
and the length of the Grouped list, the timers agree, and an armed
timer implies a non-empty accumulator. -/
def SimInv {α : Type} (g : GState α) (s : SigState) (l : LState α) (c : CState) : Prop :=
  s.pending = !g.pending.isEmpty ∧
  l.last = g.pending.getLast? ∧
  c.count = g.pending.length ∧
  s.intervalArmed = g.intervalArmed ∧
  l.intervalArmed = g.intervalArmed ∧
  c.intervalArmed = g.intervalArmed ∧
  s.maxDeadline = g.maxDeadline ∧
  l.maxDeadline = g.maxDeadline ∧
  c.maxDeadline = g.maxDeadline ∧
  (g.intervalArmed = true → g.pending ≠ []) ∧
  (g.maxDeadline.isSome = true → g.pending ≠ [])

/-- The schedule of TestCountedWithNoMax (interval 2ms, maxDelay 0):
ten inputs, a pause exceeding the interval during which the interval
timer fires, ten more inputs, then the input channel is closed. -/
def countedTestTrace : List (Nat × DEvent Unit) :=
  (List.range 10).map (fun i => (i, DEvent.recv ())) ++
    [(12, DEvent.intervalFire)] ++
    (List.range 10).map (fun i => (13 + i, DEvent.recv ())) ++
    [(24, DEvent.closed)]

lemma runD_append {α σ β : Type} (step : σ → Nat → DEvent α → σ × List (Nat × β))
    (final : σ → Nat → List (Nat × β)) (tr1 : List (Nat × DEvent α)) :
    ∀ (s : σ) (tr2 : List (Nat × DEvent α)), containsClosed tr1 = false →
      runD step final s (tr1 ++ tr2) =
        ((runD step final s tr1).1 ++ (runD step final (runD step final s tr1).2.2 tr2).1,
         (runD step final (runD step final s tr1).2.2 tr2).2.1,
         (runD step final (runD step final s tr1).2.2 tr2).2.2) := by
  induction tr1 with
  | nil => intro s tr2 _; simp [runD]
  | cons he tl ih =>
    intro s tr2 h
    obtain ⟨t, e⟩ := he
    cases e with
    | closed => simp [containsClosed] at h
    | recv v =>
      simp only [containsClosed] at h
      simp [runD, ih _ _ h]
    | intervalFire =>
      simp only [containsClosed] at h
      simp [runD, ih _ _ h]
    | maxFire =>
      simp only [containsClosed] at h
      simp [runD, ih _ _ h]

/-- C2: for every debounce variant, closing the input channel causes
exactly one final flush iff the pending accumulator is non-empty, after
which the output channel is closed; closing the input with no pending
data produces an empty, immediately closed output stream. -/
theorem debounce_close_flush {α : Type} (md t : Nat) (tr : List (Nat × DEvent α))
    (h : containsClosed tr = false) :
    ((runNew md newInit (tr ++ [(t, DEvent.closed)])).2.1 = true ∧
      (runNew md newInit (tr ++ [(t, DEvent.closed)])).1 =
        (runNew md newInit tr).1 ++ newFinal (runNew md newInit tr).2.2 t ∧
      (newFinal (runNew md newInit tr).2.2 t).length =
        (if (runNew md newInit tr).2.2.pending then 1 else 0)) ∧
    ((runGrouped md groupedInit (tr ++ [(t, DEvent.closed)])).2.1 = true ∧
      (runGrouped md groupedInit (tr ++ [(t, DEvent.closed)])).1 =
        (runGrouped md groupedInit tr).1 ++ groupedFinal (runGrouped md groupedInit tr).2.2 t ∧
      (groupedFinal (runGrouped md groupedInit tr).2.2 t).length =
        (if (runGrouped md groupedInit tr).2.2.pending.isEmpty then 0 else 1)) ∧
    ((runLast md lastInit (tr ++ [(t, DEvent.closed)])).2.1 = true ∧
      (runLast md lastInit (tr ++ [(t, DEvent.closed)])).1 =
        (runLast md lastInit tr).1 ++ lastFinal (runLast md lastInit tr).2.2 t ∧
      (lastFinal (runLast md lastInit tr).2.2 t).length =
        (if (runLast md lastInit tr).2.2.last.isSome then 1 else 0)) ∧
    ((runCounted md countedInit (tr ++ [(t, DEvent.closed)])).2.1 = true ∧
      (runCounted md countedInit (tr ++ [(t, DEvent.closed)])).1 =
        (runCounted md countedInit tr).1 ++ countedFinal (runCounted md countedInit tr).2.2 t ∧
      (countedFinal (runCounted md countedInit tr).2.2 t).length =
        (if (runCounted md countedInit tr).2.2.count = 0 then 0 else 1)) ∧
    runNew md newInit ([(t, DEvent.closed)] : List (Nat × DEvent α)) = ([], true, newInit) ∧
    runGrouped md (groupedInit (α := α)) [(t, DEvent.closed)] = ([], true, groupedInit) ∧
    runLast md (lastInit (α := α)) [(t, DEvent.closed)] = ([], true, lastInit) ∧
    runCounted md countedInit ([(t, DEvent.closed)] : List (Nat × DEvent α)) =
      ([], true, countedInit) := by
  refine ⟨⟨?_, ?_, ?_⟩, ⟨?_, ?_, ?_⟩, ⟨?_, ?_, ?_⟩, ⟨?_, ?_, ?_⟩, ?_, ?_, ?_, ?_⟩ <;>
    simp [runNew, runGrouped, runLast, runCounted, runD_append _ _ tr _ _ h, runD,
      newFinal, groupedFinal, lastFinal, countedFinal, newInit, groupedInit,
      lastInit, countedInit, apply_ite List.length]

/-- C2 witness at a concrete schedule: one value received then the
input closed. -/
theorem debounce_close_flush_witness :
    (runGrouped 0 groupedInit ([(0, DEvent.recv 7), (1, DEvent.closed)] : List (Nat × DEvent Nat))).2.1
      = true :=
  (debounce_close_flush 0 1 [(0, DEvent.recv 7)] (by decide)).2.1.1

/-- C3: the emitted stream respects the state machine: Created is
emitted only when the observed identity transitions from absent to
present, Deleted only from present to absent, each dispatch emits at
most one event, and re-dispatching the same notification from the
post-transition state emits nothing (no duplicate for the same cause). -/
theorem watcher_transition_events (ts : Option Nat) (tif : Bool)
    (fi : Option Nat) (e : RawEvent) :
    ((dispatchEvent ts tif fi e).2.1.length ≤ 1) ∧
    (EventType.Created ∈ (dispatchEvent ts tif fi e).2.1 ↔
      fi = none ∧ ∃ n, e = RawEvent.createEv (some n) ∧
        (dispatchEvent ts tif fi e).1 = some n) ∧
    (EventType.Deleted ∈ (dispatchEvent ts tif fi e).2.1 ↔
      fi ≠ none ∧ e = RawEvent.removeEv none ∧
        (dispatchEvent ts tif fi e).1 = none) ∧
    (EventType.Created ∈ (dispatchEvent ts tif fi e).2.1 →
      (dispatchEvent ts tif (dispatchEvent ts tif fi e).1 e).2.1 = []) ∧
    (EventType.Deleted ∈ (dispatchEvent ts tif fi e).2.1 →
      (dispatchEvent ts tif (dispatchEvent ts tif fi e).1 e).2.1 = []) := by
  cases e with
  | removeEv statF =>
    cases fi <;> cases statF <;>
      simp [dispatchEvent, handleDeleteEvent]
  | createEv statF =>
    cases fi <;> cases statF <;>
      simp [dispatchEvent, handleCreateEvent]
  | modifyEv evStat statF =>
    by_cases hs : sameFile ts evStat = true <;> cases tif <;>
      simp [dispatchEvent, handleEvent, hs]
  | errorEv => simp [dispatchEvent]
  | cancelEv => simp [dispatchEvent]

/-- C3 witness: a create notification for an absent target emits
Created and records the new identity. -/
theorem watcher_transition_events_witness :
    (dispatchEvent none true none (RawEvent.createEv (some 5))).1 = some 5 :=
  by
  have h := (watcher_transition_events none true none
      (RawEvent.createEv (some 5))).2.1.mp (by decide)
  obtain ⟨-, n, hn, hv⟩ := h
  have : n = 5 := by
    have := hn
    simp [RawEvent.createEv.injEq] at this
    exact this.symm
  rw [this] at hv
  exact hv

/-- C1 counterexample: the target is absent at the outer-loop snapshot
(targetStat is nil), then appears in place (Created is emitted and the
new identity 7 is recorded in fileInfo), and a modify-class
notification then arrives whose stat identity 7 matches the recorded
ObservedIdentity.  The claim requires an Updated emission, but the
watchloop compares against the stale nil snapshot taken at watch
establishment, so the notification is dropped: the run emits only
Created and no Updated. -/
theorem watcher_stale_snapshot_cex :
    (innerLoop none true none
        [RawEvent.createEv (some 7), RawEvent.modifyEv (some 7) (some 7)]).1
      = [EventType.Created] ∧
    EventType.Updated ∉ (innerLoop none true none
        [RawEvent.createEv (some 7), RawEvent.modifyEv (some 7) (some 7)]).1 ∧
    (innerLoop none true none [RawEvent.createEv (some 7)]).2.1 = some 7 := by
  decide

/-- C1 amended: a modify-class notification emits exactly one Updated
and refreshes the observed identity precisely when its stat identity
matches the identity snapshot taken at watch establishment (in
particular for a target present at that snapshot); notifications whose
identity does not match (unrelated siblings) emit nothing, as do
create-class notifications that leave the target's stat unchanged; and
a run of matching modify-class notifications emits one Updated each.
After an in-place creation the snapshot is not refreshed, so matching
notifications are dropped until the watch is re-established. -/
theorem watcher_modify_matching_updates (ts evStat statF fi : Option Nat) :
    (sameFile ts evStat = true →
      dispatchEvent ts true fi (RawEvent.modifyEv evStat statF) =
        (statF, [EventType.Updated], Ctl.cont)) ∧
    (sameFile ts evStat = false →
      dispatchEvent ts true fi (RawEvent.modifyEv evStat statF) =
        (fi, [], Ctl.cont)) ∧
    ((dispatchEvent ts true fi (RawEvent.createEv fi)).2.1 = []) ∧
    (∀ evs : List RawEvent, (∀ e ∈ evs, e = RawEvent.modifyEv evStat statF) →
      sameFile ts evStat = true →
      (innerLoop ts true fi evs).1 = List.replicate evs.length EventType.Updated) := by
  refine ⟨?_, ?_, ?_, ?_⟩
  · intro hs; simp [dispatchEvent, handleEvent, hs]
  · intro hs; simp [dispatchEvent, hs]
  · cases fi <;> simp [dispatchEvent, handleCreateEvent]
  · intro evs hevs hs
    revert hevs
    induction evs generalizing fi with
    | nil => intro _; simp [innerLoop]
    | cons e tl ih =>
      intro hevs
      have he : e = RawEvent.modifyEv evStat statF := hevs e (by simp)
      subst he
      simp only [innerLoop, dispatchEvent, handleEvent, hs, if_pos, if_true]
      simp [ih statF fun x hx => hevs x (by simp [hx]), List.replicate_succ]

/-- C1 witness for the amended claim: with a matching snapshot,
identity 3, two matching modify-class notifications emit exactly two
Updated events. -/
theorem watcher_modify_matching_updates_witness :
    (innerLoop (some 3) true (some 3)
        [RawEvent.modifyEv (some 3) (some 3), RawEvent.modifyEv (some 3) (some 3)]).1
      = List.replicate 2 EventType.Updated :=
  (watcher_modify_matching_updates (some 3) (some 3) (some 3) (some 3)).2.2.2
    [RawEvent.modifyEv (some 3) (some 3), RawEvent.modifyEv (some 3) (some 3)]
    (by decide) (by decide)

lemma nomax_new {α : Type} (tr : List (Nat × DEvent α)) :
    ∀ s : SigState, s.maxDeadline = none → (runNew 0 s tr).2.2.maxDeadline = none := by
  induction tr with
  | nil => intro s h; simpa [runNew, runD]
  | cons he tl ih =>
    intro s h
    obtain ⟨t, e⟩ := he
    cases e with
    | closed => simpa [runNew, runD]
    | recv v => exact ih _ (by simp [newStep, h, setMaxDelay])
    | intervalFire =>
      by_cases ha : s.intervalArmed = true <;>
        [exact ih _ (by simp [newStep, ha]); exact ih _ (by simp [newStep, ha, h])]
    | maxFire =>
      have : s.maxDeadline.isSome = false := by simp [h]
      exact ih _ (by simp [newStep, this, h])

lemma nomax_grouped {α : Type} (tr : List (Nat × DEvent α)) :
    ∀ s : GState α, s.maxDeadline = none → (runGrouped 0 s tr).2.2.maxDeadline = none := by
  induction tr with
  | nil => intro s h; simpa [runGrouped, runD]
  | cons he tl ih =>
    intro s h
    obtain ⟨t, e⟩ := he
    cases e with
    | closed => simpa [runGrouped, runD]
    | recv v => exact ih _ (by simp [groupedStep, h, setMaxDelay])
    | intervalFire =>
      by_cases ha : s.intervalArmed = true <;>
        [exact ih _ (by simp [groupedStep, ha]); exact ih _ (by simp [groupedStep, ha, h])]
    | maxFire =>
      have : s.maxDeadline.isSome = false := by simp [h]
      exact ih _ (by simp [groupedStep, this, h])

lemma nomax_last {α : Type} (tr : List (Nat × DEvent α)) :
    ∀ s : LState α, s.maxDeadline = none → (runLast 0 s tr).2.2.maxDeadline = none := by
  induction tr with
  | nil => intro s h; simpa [runLast, runD]
  | cons he tl ih =>
    intro s h
    obtain ⟨t, e⟩ := he
    cases e with
    | closed => simpa [runLast, runD]
    | recv v => exact ih _ (by simp [lastStep, h, setMaxDelay])
    | intervalFire =>
      by_cases ha : s.intervalArmed = true <;>
        [exact ih _ (by simp [lastStep, ha]); exact ih _ (by simp [lastStep, ha, h])]
    | maxFire =>
      have : s.maxDeadline.isSome = false := by simp [h]
      exact ih _ (by simp [lastStep, this, h])

lemma nomax_counted {α : Type} (tr : List (Nat × DEvent α)) :
    ∀ s : CState, s.maxDeadline = none → (runCounted 0 s tr).2.2.maxDeadline = none := by
  induction tr with
  | nil => intro s h; simpa [runCounted, runD]
  | cons he tl ih =>
    intro s h
    obtain ⟨t, e⟩ := he
    cases e with
    | closed => simpa [runCounted, runD]
    | recv v => exact ih _ (by simp [countedStep, h, setMaxDelay])
    | intervalFire =>
      by_cases ha : s.intervalArmed = true <;>
        [exact ih _ (by simp [countedStep, ha]); exact ih _ (by simp [countedStep, ha, h])]
    | maxFire =>
      have : s.maxDeadline.isSome = false := by simp [h]
      exact ih _ (by simp [countedStep, this, h])

/-- C5: with maxDelay = 0 no max-delay deadline is ever armed in any of
the four variants, a max-delay firing is a no-op (so a flush happens
only when the interval timer fires or the input is closed), and the
Counted variant fed ten inputs, an interval expiry, ten more inputs and
a close outputs exactly [10, 10]. -/
theorem debounce_nomax_behavior {α : Type} (tr : List (Nat × DEvent α)) :
    ((runNew 0 newInit tr).2.2.maxDeadline = none) ∧
    ((runGrouped 0 groupedInit tr).2.2.maxDeadline = none) ∧
    ((runLast 0 lastInit tr).2.2.maxDeadline = none) ∧
    ((runCounted 0 countedInit tr).2.2.maxDeadline = none) ∧
    (∀ (s : CState) (t : Nat), s.maxDeadline = none →
      countedStep (α := α) 0 s t DEvent.maxFire = (s, [])) ∧
    ((runCounted 0 countedInit countedTestTrace).1.map Prod.snd = [10, 10] ∧
      (runCounted 0 countedInit countedTestTrace).2.1 = true) := by
  refine ⟨nomax_new tr newInit rfl, nomax_grouped tr groupedInit rfl,
    nomax_last tr lastInit rfl, nomax_counted tr countedInit rfl, ?_, by decide⟩
  intro s t h
  simp [countedStep, h]

/-- C5 witness: the maxFire no-op conjunct applied at the initial
Counted state. -/
theorem debounce_nomax_behavior_witness :
    countedStep (α := Unit) 0 countedInit 3 DEvent.maxFire = (countedInit, []) :=
  (debounce_nomax_behavior ([] : List (Nat × DEvent Unit))).2.2.2.2.1 countedInit 3 rfl

lemma grouped_join {α : Type} (md : Nat) (tr : List (Nat × DEvent α)) :
    ∀ s : GState α,
      ((runGrouped md s tr).1.map Prod.snd).flatten ++
        (if (runGrouped md s tr).2.1 then [] else (runGrouped md s tr).2.2.pending)
      = s.pending ++ recvsBefore tr := by
  induction tr with
  | nil => intro s; simp [runGrouped, runD, recvsBefore]
  | cons he tl ih =>
    intro s
    obtain ⟨t, e⟩ := he
    cases e with
    | closed =>
      by_cases hp : s.pending.isEmpty
      · simp [runGrouped, runD, recvsBefore, groupedFinal, hp,
          List.isEmpty_iff.mp hp]
      · simp [runGrouped, runD, recvsBefore, groupedFinal, hp]
    | recv v =>
      have h := ih ⟨s.pending ++ [v], true, setMaxDelay md t s.maxDeadline⟩
      simp only [runGrouped, runD, groupedStep, recvsBefore, List.nil_append] at h ⊢
      rw [h]
      simp
    | intervalFire =>
      by_cases ha : s.intervalArmed = true
      · have h := ih ⟨[], false, none⟩
        simp only [runGrouped, runD, groupedStep, recvsBefore, ha, if_true,
          List.map_cons, List.flatten_cons, List.append_assoc,
          List.nil_append] at h ⊢
        simp [List.map_append, List.flatten_append, List.append_assoc, h]
      · have h := ih s
        simp only [runGrouped, runD, groupedStep, recvsBefore, ha] at h ⊢
        simpa using h
    | maxFire =>
      by_cases ha : s.maxDeadline.isSome = true
      · have h := ih ⟨[], false, none⟩
        simp only [runGrouped, runD, groupedStep, recvsBefore, ha, if_true,
          List.map_cons, List.flatten_cons, List.append_assoc,
          List.nil_append] at h ⊢
        simp [List.map_append, List.flatten_append, List.append_assoc, h]
      · have h := ih s
        simp only [runGrouped, runD, groupedStep, recvsBefore, ha] at h ⊢
        simpa using h

/-- C6: over a schedule whose input is eventually closed, the
concatenation of the lists emitted by the Grouped variant is exactly
the received values in arrival order (so consecutive flushes partition
the input stream into its bursts), and each flush emits the whole
accumulator and resets it to empty. -/
theorem grouped_outputs_partition {α : Type} (md : Nat) (tr : List (Nat × DEvent α)) :
    ((runGrouped md groupedInit tr).2.1 = true →
      ((runGrouped md groupedInit tr).1.map Prod.snd).flatten = recvsBefore tr) ∧
    (∀ (s : GState α) (t : Nat), s.intervalArmed = true →
      (groupedStep md s t DEvent.intervalFire).1.pending = [] ∧
      (groupedStep md s t DEvent.intervalFire).2 = [(t, s.pending)]) ∧
    (∀ (s : GState α) (t : Nat), s.maxDeadline.isSome = true →
      (groupedStep md s t DEvent.maxFire).1.pending = [] ∧
      (groupedStep md s t DEvent.maxFire).2 = [(t, s.pending)]) := by
  refine ⟨?_, ?_, ?_⟩
  · intro hc
    have h := grouped_join md tr groupedInit
    rw [hc] at h
    simpa [groupedInit] using h
  · intro s t ha; simp [groupedStep, ha]
  · intro s t ha; simp [groupedStep, ha]

/-- C6 witness: two bursts [1, 2] and [3] separated by an interval
expiry; the emitted lists concatenate to the received inputs. -/
theorem grouped_outputs_partition_witness :
    ((runGrouped 0 groupedInit
        [(0, DEvent.recv 1), (1, DEvent.recv 2), (2, DEvent.intervalFire),
         (3, DEvent.recv 3), (4, DEvent.closed)]).1.map Prod.snd).flatten =
      recvsBefore
        [(0, DEvent.recv 1), (1, DEvent.recv 2), (2, DEvent.intervalFire),
         (3, DEvent.recv 3), (4, DEvent.closed)] :=
  (grouped_outputs_partition 0 _).1 (by decide)

lemma grouped_inv {α : Type} (md : Nat) (tr : List (Nat × DEvent α)) :
    ∀ s : GState α,
      (s.intervalArmed = true → s.pending ≠ []) →
      (s.maxDeadline.isSome = true → s.pending ≠ []) →
      (∀ p ∈ (runGrouped md s tr).1, p.2 ≠ []) ∧
      ((runGrouped md s tr).2.2.intervalArmed = true →
        (runGrouped md s tr).2.2.pending ≠ []) ∧
      ((runGrouped md s tr).2.2.maxDeadline.isSome = true →
        (runGrouped md s tr).2.2.pending ≠ []) := by
  induction tr with
  | nil =>
    intro s hi hm
    exact ⟨by simp [runGrouped, runD], by simpa [runGrouped, runD] using hi,
      by simpa [runGrouped, runD] using hm⟩
  | cons he tl ih =>
    intro s hi hm
    obtain ⟨t, e⟩ := he
    cases e with
    | closed =>
      refine ⟨?_, by simpa [runGrouped, runD] using hi,
        by simpa [runGrouped, runD] using hm⟩
      intro p hp
      by_cases hpd : s.pending.isEmpty
      · simp [runGrouped, runD, groupedFinal, hpd] at hp
      · simp [runGrouped, runD, groupedFinal, hpd] at hp
        rw [hp]
        simpa using hpd
    | recv v =>
      have h := ih ⟨s.pending ++ [v], true, setMaxDelay md t s.maxDeadline⟩
        (by simp) (by simp)
      simp only [runGrouped, runD, groupedStep] at h ⊢
      simpa using h
    | intervalFire =>
      by_cases ha : s.intervalArmed = true
      · have h := ih ⟨[], false, none⟩ (by simp) (by simp)
        simp only [runGrouped, runD, groupedStep, ha, if_true] at h ⊢
        refine ⟨?_, h.2.1, h.2.2⟩
        intro p hp
        simp only [List.singleton_append, List.mem_cons] at hp
        rcases hp with hp | hp
        · rw [hp]; exact hi ha
        · exact h.1 p hp
      · have h := ih s hi hm
        simp only [runGrouped, runD, groupedStep, ha] at h ⊢
        simpa using h
    | maxFire =>
      by_cases ha : s.maxDeadline.isSome = true
      · have h := ih ⟨[], false, none⟩ (by simp) (by simp)
        simp only [runGrouped, runD, groupedStep, ha, if_true] at h ⊢
        refine ⟨?_, h.2.1, h.2.2⟩
        intro p hp
        simp only [List.singleton_append, List.mem_cons] at hp
        rcases hp with hp | hp
        · rw [hp]; exact hm ha
        · exact h.1 p hp
      · have h := ih s hi hm
        simp only [runGrouped, runD, groupedStep, ha] at h ⊢
        simpa using h

lemma counted_inv {α : Type} (md : Nat) (tr : List (Nat × DEvent α)) :
    ∀ s : CState,
      (s.intervalArmed = true → s.count ≠ 0) →
      (s.maxDeadline.isSome = true → s.count ≠ 0) →
      (∀ p ∈ (runCounted md s tr).1, p.2 ≠ 0) ∧
      ((runCounted md s tr).2.2.intervalArmed = true →
        (runCounted md s tr).2.2.count ≠ 0) ∧
      ((runCounted md s tr).2.2.maxDeadline.isSome = true →
        (runCounted md s tr).2.2.count ≠ 0) := by
  induction tr with
  | nil =>
    intro s hi hm
    exact ⟨by simp [runCounted, runD], by simpa [runCounted, runD] using hi,
      by simpa [runCounted, runD] using hm⟩
  | cons he tl ih =>
    intro s hi hm
    obtain ⟨t, e⟩ := he
    cases e with
    | closed =>
      refine ⟨?_, by simpa [runCounted, runD] using hi,
        by simpa [runCounted, runD] using hm⟩
      intro p hp
      by_cases hpd : s.count = 0
      · simp [runCounted, runD, countedFinal, hpd] at hp
      · simp [runCounted, runD, countedFinal, hpd] at hp
        rw [hp]
        exact hpd
    | recv v =>
      have h := ih ⟨s.count + 1, true, setMaxDelay md t s.maxDeadline⟩
        (by simp) (by simp)
      simp only [runCounted, runD, countedStep] at h ⊢
      simpa using h
    | intervalFire =>
      by_cases ha : s.intervalArmed = true
      · have h := ih ⟨0, false, none⟩ (by simp) (by simp)
        simp only [runCounted, runD, countedStep, ha, if_true] at h ⊢
        refine ⟨?_, h.2.1, h.2.2⟩
        intro p hp
        simp only [List.singleton_append, List.mem_cons] at hp
        rcases hp with hp | hp
        · rw [hp]; exact hi ha
        · exact h.1 p hp
      · have h := ih s hi hm
        simp only [runCounted, runD, countedStep, ha] at h ⊢
        simpa using h
    | maxFire =>
      by_cases ha : s.maxDeadline.isSome = true
      · have h := ih ⟨0, false, none⟩ (by simp) (by simp)
        simp only [runCounted, runD, countedStep, ha, if_true] at h ⊢
        refine ⟨?_, h.2.1, h.2.2⟩
        intro p hp
        simp only [List.singleton_append, List.mem_cons] at hp
        rcases hp with hp | hp
        · rw [hp]; exact hm ha
        · exact h.1 p hp
      · have h := ih s hi hm
        simp only [runCounted, runD, countedStep, ha] at h ⊢
        simpa using h

/-- C10: every list emitted by the Grouped variant is non-empty and
every count emitted by the Counted variant is at least 1, because
whenever the interval or max-delay deadline is armed the accumulator
holds at least one element (deadlines are armed only on input arrival
and every flush clears them). -/
theorem debounce_outputs_nonempty {α : Type} (md : Nat) (tr : List (Nat × DEvent α)) :
    (∀ p ∈ (runGrouped md groupedInit tr).1, p.2 ≠ []) ∧
    (∀ p ∈ (runCounted md countedInit tr).1, 1 ≤ p.2) ∧
    ((runGrouped md groupedInit tr).2.2.intervalArmed = true →
      (runGrouped md groupedInit tr).2.2.pending ≠ []) ∧
    ((runGrouped md groupedInit tr).2.2.maxDeadline.isSome = true →
      (runGrouped md groupedInit tr).2.2.pending ≠ []) ∧
    ((runCounted md countedInit tr).2.2.intervalArmed = true →
      1 ≤ (runCounted md countedInit tr).2.2.count) ∧
    ((runCounted md countedInit tr).2.2.maxDeadline.isSome = true →
      1 ≤ (runCounted md countedInit tr).2.2.count) := by
  have hg := grouped_inv md tr groupedInit (by simp [groupedInit]) (by simp [groupedInit])
  have hc := counted_inv md tr countedInit (by simp [countedInit]) (by simp [countedInit])
  exact ⟨hg.1, fun p hp => Nat.one_le_iff_ne_zero.mpr (hc.1 p hp), hg.2.1, hg.2.2,
    fun h => Nat.one_le_iff_ne_zero.mpr (hc.2.1 h),
    fun h => Nat.one_le_iff_ne_zero.mpr (hc.2.2 h)⟩

/-- C10 witness: a concrete run emitting the list [5] and the count 1. -/
theorem debounce_outputs_nonempty_witness :
    ((5 : Nat), [(7 : Nat)]).2 ≠ [] ∧ (1 : Nat) ≤ ((5 : Nat), (1 : Nat)).2 :=
  ⟨(debounce_outputs_nonempty 0 [(0, DEvent.recv 7), (5, DEvent.intervalFire)]).1
      (5, [7]) (by decide),
   (debounce_outputs_nonempty 0 [(0, DEvent.recv 7), (5, DEvent.intervalFire)]).2.1
      (5, 1) (by decide)⟩

lemma sim_step {α : Type} (md : Nat) (g : GState α) (s : SigState) (l : LState α)
    (c : CState) (h : SimInv g s l c) (t : Nat) (e : DEvent α) :
    SimInv (groupedStep md g t e).1 (newStep md s t e).1 (lastStep md l t e).1
      (countedStep md c t e).1 ∧
    (newStep md s t e).2 = (groupedStep md g t e).2.map (fun p => (p.1, ())) ∧
    (lastStep md l t e).2 = (groupedStep md g t e).2.map (fun p => (p.1, p.2.getLast?)) ∧
    (countedStep md c t e).2 = (groupedStep md g t e).2.map (fun p => (p.1, p.2.length)) := by
  obtain ⟨h1, h2, h3, h4, h5, h6, h7, h8, h9, h10, h11⟩ := h
  cases e with
  | closed => exact ⟨⟨h1, h2, h3, h4, h5, h6, h7, h8, h9, h10, h11⟩, rfl, rfl, rfl⟩
  | recv v =>
    refine ⟨?_, rfl, rfl, rfl⟩
    simp [SimInv, newStep, groupedStep, lastStep, countedStep, h3, h7, h8, h9,
      List.getLast?_concat]
  | intervalFire =>
    by_cases ha : g.intervalArmed = true
    · have ha4 : s.intervalArmed = true := h4.trans ha
      have ha5 : l.intervalArmed = true := h5.trans ha
      have ha6 : c.intervalArmed = true := h6.trans ha
      refine ⟨?_, ?_, ?_, ?_⟩ <;>
        simp [SimInv, newStep, groupedStep, lastStep, countedStep, ha, ha4, ha5, ha6,
          h2, h3]
    · have hb : g.intervalArmed = false := by simpa using ha
      have hb4 : s.intervalArmed = false := h4.trans hb
      have hb5 : l.intervalArmed = false := h5.trans hb
      have hb6 : c.intervalArmed = false := h6.trans hb
      have hgs : groupedStep md g t DEvent.intervalFire = (g, []) := by
        simp [groupedStep, hb]
      have hss : newStep (α := α) md s t DEvent.intervalFire = (s, []) := by
        simp [newStep, hb4]
      have hls : lastStep md l t DEvent.intervalFire = (l, []) := by
        simp [lastStep, hb5]
      have hcs : countedStep (α := α) md c t DEvent.intervalFire = (c, []) := by
        simp [countedStep, hb6]
      rw [hgs, hss, hls, hcs]
      exact ⟨⟨h1, h2, h3, h4, h5, h6, h7, h8, h9, h10, h11⟩, rfl, rfl, rfl⟩
  | maxFire =>
    by_cases ha : g.maxDeadline.isSome = true
    · have ha7 : s.maxDeadline.isSome = true := by rw [h7]; exact ha
      have ha8 : l.maxDeadline.isSome = true := by rw [h8]; exact ha
      have ha9 : c.maxDeadline.isSome = true := by rw [h9]; exact ha
      have hne : g.pending ≠ [] := h11 ha
      have hemp : g.pending.isEmpty = false := by
        simpa [List.isEmpty_iff] using hne
      have hlast : l.last.isSome = true := by
        rw [h2]
        exact List.getLast?_isSome.mpr hne
      refine ⟨?_, ?_, ?_, ?_⟩ <;>
        simp [SimInv, newStep, groupedStep, lastStep, countedStep, ha, ha7, ha8, ha9,
          h1, h2, h3, hemp, hlast] <;> exact hne
    · have hb : g.maxDeadline.isSome = false := by simpa using ha
      have hb7 : s.maxDeadline.isSome = false := by rw [h7]; exact hb
      have hb8 : l.maxDeadline.isSome = false := by rw [h8]; exact hb
      have hb9 : c.maxDeadline.isSome = false := by rw [h9]; exact hb
      have hgs : groupedStep md g t DEvent.maxFire = (g, []) := by
        simp [groupedStep, hb]
      have hss : newStep (α := α) md s t DEvent.maxFire = (s, []) := by
        simp [newStep, hb7]
      have hls : lastStep md l t DEvent.maxFire = (l, []) := by
        simp [lastStep, hb8]
      have hcs : countedStep (α := α) md c t DEvent.maxFire = (c, []) := by
        simp [countedStep, hb9]
      rw [hgs, hss, hls, hcs]
      exact ⟨⟨h1, h2, h3, h4, h5, h6, h7, h8, h9, h10, h11⟩, rfl, rfl, rfl⟩

lemma sim_final {α : Type} (g : GState α) (s : SigState) (l : LState α) (c : CState)
    (h : SimInv g s l c) (t : Nat) :
    newFinal s t = (groupedFinal g t).map (fun p => (p.1, ())) ∧
    lastFinal l t = (groupedFinal g t).map (fun p => (p.1, p.2.getLast?)) ∧
    countedFinal c t = (groupedFinal g t).map (fun p => (p.1, p.2.length)) := by
  obtain ⟨h1, h2, h3, h4, h5, h6, h7, h8, h9, h10, h11⟩ := h
  by_cases hp : g.pending.isEmpty = true
  · have hnil : g.pending = [] := List.isEmpty_iff.mp hp
    refine ⟨?_, ?_, ?_⟩ <;>
      simp [newFinal, lastFinal, countedFinal, groupedFinal, h1, h2, h3, hp, hnil]
  · have hemp : g.pending.isEmpty = false := by simpa using hp
    have hne : g.pending ≠ [] := by simpa [List.isEmpty_iff] using hp
    have hlast : l.last.isSome = true := by
      rw [h2]
      exact List.getLast?_isSome.mpr hne
    have hcnt : c.count ≠ 0 := by
      rw [h3]
      simpa using hne
    refine ⟨?_, ?_, ?_⟩ <;>
      simp [newFinal, lastFinal, countedFinal, groupedFinal, h1, h2, h3, hemp, hlast,
        hcnt] <;> exact hne

lemma sim_run {α : Type} (md : Nat) (tr : List (Nat × DEvent α)) :
    ∀ (g : GState α) (s : SigState) (l : LState α) (c : CState), SimInv g s l c →
      (runNew md s tr).1 = (runGrouped md g tr).1.map (fun p => (p.1, ())) ∧
      (runLast md l tr).1 = (runGrouped md g tr).1.map (fun p => (p.1, p.2.getLast?)) ∧
      (runCounted md c tr).1 = (runGrouped md g tr).1.map (fun p => (p.1, p.2.length)) := by
  induction tr with
  | nil => intro g s l c _; simp [runNew, runGrouped, runLast, runCounted, runD]
  | cons he tl ih =>
    intro g s l c h
    obtain ⟨t, e⟩ := he
    cases e with
    | closed =>
      have hf := sim_final g s l c h t
      simpa [runNew, runGrouped, runLast, runCounted, runD] using hf
    | recv v =>
      have hs := sim_step md g s l c h t (DEvent.recv v)
      have ihh := ih _ _ _ _ hs.1
      simp only [runNew, runGrouped, runLast, runCounted, runD] at ihh ⊢
      simp [List.map_append, ihh.1, ihh.2.1, ihh.2.2, hs.2.1, hs.2.2.1, hs.2.2.2]
    | intervalFire =>
      have hs := sim_step md g s l c h t DEvent.intervalFire
      have ihh := ih _ _ _ _ hs.1
      simp only [runNew, runGrouped, runLast, runCounted, runD] at ihh ⊢
      simp [List.map_append, ihh.1, ihh.2.1, ihh.2.2, hs.2.1, hs.2.2.1, hs.2.2.2]
    | maxFire =>
      have hs := sim_step md g s l c h t DEvent.maxFire
      have ihh := ih _ _ _ _ hs.1
      simp only [runNew, runGrouped, runLast, runCounted, runD] at ihh ⊢
      simp [List.map_append, ihh.1, ihh.2.1, ihh.2.2, hs.2.1, hs.2.2.1, hs.2.2.2]

/-- C9: over any common input schedule the four variants behave as one
algorithm with different accumulators: the Counted outputs are the
element-wise lengths of the Grouped outputs, the Last outputs are their
element-wise last elements, and the Signal variant emits exactly one
unit per Grouped flush, at the same times. -/
theorem debounce_variants_agree {α : Type} (md : Nat) (tr : List (Nat × DEvent α)) :
    (runCounted md countedInit tr).1 =
      (runGrouped md groupedInit tr).1.map (fun p => (p.1, p.2.length)) ∧
    (runLast md lastInit tr).1 =
      (runGrouped md groupedInit tr).1.map (fun p => (p.1, p.2.getLast?)) ∧
    (runNew md newInit tr).1 =
      (runGrouped md groupedInit tr).1.map (fun p => (p.1, ())) ∧
    (runNew md newInit tr).1.length = (runGrouped md groupedInit tr).1.length := by
  have h := sim_run md tr groupedInit newInit lastInit countedInit
    (by simp [SimInv, groupedInit, newInit, lastInit, countedInit])
  exact ⟨h.2.2, h.2.1, h.1, by rw [h.1]; simp⟩

lemma new_progress_aux {α : Type} (md : Nat) (tr : List (Nat × DEvent α)) :
    ∀ (s : SigState) (d : Nat), s.maxDeadline = some d → s.pending = true →
      promptD SigState.maxDeadline (newStep md) s tr = true →
      containsClosed tr = true →
      ∃ p ∈ (runNew md s tr).1, p.1 ≤ d := by
  induction tr with
  | nil => intro s d _ _ _ hc; simp [containsClosed] at hc
  | cons he tl ih =>
    intro s d hd hp hprompt hc
    obtain ⟨t, e⟩ := he
    cases e with
    | closed =>
      have htd : t ≤ d := by simpa [promptD, hd] using hprompt
      refine ⟨(t, ()), ?_, htd⟩
      simp [runNew, runD, newFinal, hp]
    | recv v =>
      simp only [promptD, hd, Bool.and_eq_true, decide_eq_true_eq] at hprompt
      obtain ⟨htd, hrest⟩ := hprompt
      have h := ih ⟨true, true, some d⟩ d rfl rfl
        (by simpa [newStep, hd, setMaxDelay] using hrest)
        (by simpa [containsClosed] using hc)
      obtain ⟨p, hmem, hpd⟩ := h
      refine ⟨p, ?_, hpd⟩
      have heq : (runNew md s ((t, DEvent.recv v) :: tl)).1 =
          (runNew md ⟨true, true, some d⟩ tl).1 := by
        simp [runNew, runD, newStep, hd, setMaxDelay]
      rw [heq]
      exact hmem
    | intervalFire =>
      simp only [promptD, hd, Bool.and_eq_true, decide_eq_true_eq] at hprompt
      obtain ⟨htd, hrest⟩ := hprompt
      by_cases ha : s.intervalArmed = true
      · refine ⟨(t, ()), ?_, htd⟩
        simp [runNew, runD, newStep, ha]
      · have hb : s.intervalArmed = false := by simpa using ha
        have h := ih s d hd hp (by simpa [newStep, hb] using hrest)
          (by simpa [containsClosed] using hc)
        obtain ⟨p, hmem, hpd⟩ := h
        refine ⟨p, ?_, hpd⟩
        have heq : (runNew md s ((t, DEvent.intervalFire) :: tl)).1 =
            (runNew md s tl).1 := by
          simp [runNew, runD, newStep, hb]
        rw [heq]
        exact hmem
    | maxFire =>
      simp only [promptD, hd, Bool.and_eq_true, decide_eq_true_eq] at hprompt
      obtain ⟨htd, hrest⟩ := hprompt
      refine ⟨(t, ()), ?_, htd⟩
      have hsome : s.maxDeadline.isSome = true := by simp [hd]
      simp [runNew, runD, newStep, hsome, hp]

/-- C4: for maxDelay > 0, when the max-delay deadline fires while the
accumulator holds pending data the accumulator is flushed and both
deadlines are cleared; consequently, under prompt event servicing, once
a burst begins (an input arrives with nothing pending and no max-delay
armed) on a stream that is eventually closed, some output is emitted no
later than maxDelay after the burst began. -/
theorem debounce_maxdelay_progress {α : Type} (md : Nat) (hmd : 0 < md) :
    (∀ (s : SigState) (t d : Nat), s.maxDeadline = some d → s.pending = true →
      newStep (α := α) md s t DEvent.maxFire = (⟨false, false, none⟩, [(t, ())])) ∧
    (∀ (s : SigState) (t0 : Nat) (v : α) (tr : List (Nat × DEvent α)),
      s.pending = false → s.maxDeadline = none →
      promptD SigState.maxDeadline (newStep md) s ((t0, DEvent.recv v) :: tr) = true →
      containsClosed tr = true →
      ∃ p ∈ (runNew md s ((t0, DEvent.recv v) :: tr)).1, p.1 ≤ t0 + md) := by
  have hmd0 : md ≠ 0 := Nat.pos_iff_ne_zero.mp hmd
  constructor
  · intro s t d hd hp
    have hsome : s.maxDeadline.isSome = true := by simp [hd]
    simp [newStep, hsome, hp]
  · intro s t0 v tr hp hnone hprompt hc
    simp only [promptD, hnone, newStep, setMaxDelay, hmd0, Bool.and_eq_true,
      decide_eq_true_eq, if_true, ne_eq, not_false_iff] at hprompt
    have h := new_progress_aux md tr ⟨true, true, some (t0 + md)⟩ (t0 + md) rfl rfl
      (by simpa using hprompt) hc
    obtain ⟨p, hmem, hpd⟩ := h
    refine ⟨p, ?_, hpd⟩
    have heq : (runNew md s ((t0, DEvent.recv v) :: tr)).1 =
        (runNew md ⟨true, true, some (t0 + md)⟩ tr).1 := by
      simp [runNew, runD, newStep, hnone, setMaxDelay, hmd0]
    rw [heq]
    exact hmem

/-- C4 witness: maxDelay 5, one input at time 0 starting a burst, the
max-delay timer fires at time 5, the input closes at 6; the flush at
time 5 is within the bound. -/
theorem debounce_maxdelay_progress_witness :
    ∃ p ∈ (runNew 5 newInit
        [(0, DEvent.recv ()), (5, DEvent.maxFire), (6, DEvent.closed)]).1,
      p.1 ≤ 0 + 5 :=
  (debounce_maxdelay_progress 5 (by decide)).2 newInit 0 ()
    [(5, DEvent.maxFire), (6, DEvent.closed)] rfl rfl (by decide) (by decide)

lemma watchLocationFuel_root_none (dirs : List String → Bool) (h : dirs [] = false) :
    ∀ (fuel : Nat) (tgt : List String), watchLocationFuel dirs fuel [] tgt = none := by
  intro fuel
  induction fuel with
  | zero => intro tgt; rfl
  | succ n ih => intro tgt; simp [watchLocationFuel, h, parentDir, ih]

lemma take_dropLast (p : List String) (i : Nat) (h : i + 1 ≤ p.length) :
    (p.take (i + 1)).dropLast = p.take i := by
  have hlen : (p.take (i + 1)).length = i + 1 := by
    rw [List.length_take]
    omega
  rw [List.dropLast_eq_take, hlen]
  simp [List.take_take]

lemma take_succ_ne_take (p : List String) (i : Nat) (h : i + 1 ≤ p.length) :
    p.take (i + 1) ≠ p.take i := by
  intro he
  have h1 : (p.take (i + 1)).length = i + 1 := by rw [List.length_take]; omega
  have h2 : (p.take i).length = i := by rw [List.length_take]; omega
  rw [he, h2] at h1
  omega

lemma watchLocationFuel_spec (dirs : List String → Bool) (p : List String) :
    ∀ (fuel : Nat), ∀ (i : Nat) (tgt a c : List String),
      i ≤ p.length →
      ((tgt = p ∧ i = p.length) ∨ (tgt = p.take (i + 1) ∧ i < p.length)) →
      watchLocationFuel dirs fuel (p.take i) tgt = some (a, c) →
      ∃ j, j ≤ i ∧ a = p.take j ∧ dirs a = true ∧
        (∀ k, j < k → k ≤ i → dirs (p.take k) = false) ∧
        (c = p ∨ (c = p.take (j + 1) ∧ c.dropLast = a ∧ c ≠ a)) := by
  intro fuel
  induction fuel with
  | zero => intro i tgt a c _ _ hr; simp [watchLocationFuel] at hr
  | succ n ih =>
    intro i tgt a c hi htgt hr
    by_cases hdir : dirs (p.take i) = true
    · rw [watchLocationFuel, if_pos hdir] at hr
      have ha : p.take i = a := by
        have := Option.some.inj hr
        exact congrArg Prod.fst this
      have hc : tgt = c := by
        have := Option.some.inj hr
        exact congrArg Prod.snd this
      refine ⟨i, le_refl i, ha.symm, by rw [← ha]; exact hdir, ?_, ?_⟩
      · intro k h1 h2; omega
      · rcases htgt with ⟨h1, _⟩ | ⟨h1, h2⟩
        · exact Or.inl (hc.symm.trans h1)
        · refine Or.inr ⟨hc.symm.trans h1, ?_, ?_⟩
          · rw [← hc, h1, take_dropLast p i (by omega), ha]
          · rw [← hc, h1, ← ha]
            exact take_succ_ne_take p i (by omega)
    · have hdir2 : dirs (p.take i) = false := by simpa using hdir
      rw [watchLocationFuel, if_neg (by simp [hdir2])] at hr
      cases i with
      | zero =>
        have hroot : dirs [] = false := by simpa using hdir2
        rw [show parentDir (p.take 0) = [] by simp [parentDir]] at hr
        rw [watchLocationFuel_root_none dirs hroot n (p.take 0)] at hr
        exact absurd hr (by simp)
      | succ i2 =>
        have hi2 : i2 + 1 ≤ p.length := hi
        rw [show parentDir (p.take (i2 + 1)) = p.take i2 from
          take_dropLast p i2 hi2] at hr
        have h := ih i2 (p.take (i2 + 1)) a c (by omega) (Or.inr ⟨rfl, by omega⟩) hr
        obtain ⟨j, hj, ha, hda, hk, hcd⟩ := h
        refine ⟨j, by omega, ha, hda, ?_, hcd⟩
        intro k h1 h2
        by_cases hke : k = i2 + 1
        · rw [hke]; exact hdir2
        · exact hk k h1 (by omega)

/-- C7: whenever watchLocation succeeds on a path, the returned
watchPath is an existing directory and is the nearest existing ancestor
of the path walking upward (every strictly longer ancestor of the path
is not an existing directory), and the returned watchTarget is either
the watched path itself (fully resolved) or the direct child of the
watchPath on the way toward the watched path. -/
theorem watchLocation_spec (dirs : List String → Bool) (p a c : List String)
    (h : watchLocation dirs p = some (a, c)) :
    dirs a = true ∧
    ∃ j, j ≤ p.length ∧ a = p.take j ∧
      (∀ k, j < k → k ≤ p.length → dirs (p.take k) = false) ∧
      (c = p ∨ (c = p.take (j + 1) ∧ c.dropLast = a ∧ c ≠ a)) := by
  have h2 : watchLocationFuel dirs (p.length + 1) (p.take p.length) p = some (a, c) := by
    rw [List.take_length]
    exact h
  have h3 := watchLocationFuel_spec dirs p (p.length + 1) p.length p a c
    (le_refl _) (Or.inl ⟨rfl, rfl⟩) h2
  obtain ⟨j, hj, ha, hda, hk, hcd⟩ := h3
  exact ⟨hda, j, hj, ha, hk, hcd⟩

/-- C7 witness: with directories being the root and its single-segment
children, resolving the path a/b/c anchors at a with expected child
a/b. -/
theorem watchLocation_spec_witness :
    (fun q : List String => decide (q.length ≤ 1)) ["a"] = true ∧
    ∃ j, j ≤ (["a", "b", "c"] : List String).length ∧
      (["a"] : List String) = (["a", "b", "c"] : List String).take j ∧
      (∀ k, j < k → k ≤ (["a", "b", "c"] : List String).length →
        (fun q : List String => decide (q.length ≤ 1))
          ((["a", "b", "c"] : List String).take k) = false) ∧
      ((["a", "b"] : List String) = ["a", "b", "c"] ∨
        ((["a", "b"] : List String) = (["a", "b", "c"] : List String).take (j + 1) ∧
          (["a", "b"] : List String).dropLast = ["a"] ∧
          (["a", "b"] : List String) ≠ ["a"])) :=
  watchLocation_spec (fun q => decide (q.length ≤ 1)) ["a", "b", "c"] ["a"] ["a", "b"]
    (by decide)

lemma watchLocationFuel_total (dirs : List String → Bool) (h : dirs [] = true) :
    ∀ (fuel : Nat) (path tgt : List String), path.length < fuel →
      (watchLocationFuel dirs fuel path tgt).isSome = true := by
  intro fuel
  induction fuel with
  | zero => intro path tgt h2; exact absurd h2 (Nat.not_lt_zero _)
  | succ n ih =>
    intro path tgt h2
    by_cases hd : dirs path = true
    · simp [watchLocationFuel, hd]
    · have hne : path ≠ [] := by
        intro he
        rw [he] at hd
        exact hd h
      have hpos : 0 < path.length := List.length_pos.mpr hne
      have hlen : (parentDir path).length < n := by
        have hdl : (parentDir path).length = path.length - 1 := by
          simp [parentDir, List.length_dropLast]
        omega
      rw [watchLocationFuel, if_neg hd]
      exact ih (parentDir path) path hlen

lemma watchParentsFuel_total :
    ∀ (fuel : Nat) (path : List String), path.length < fuel →
      (watchParentsFuel fuel path).isSome = true := by
  intro fuel
  induction fuel with
  | zero => intro path h; exact absurd h (Nat.not_lt_zero _)
  | succ n ih =>
    intro path h
    by_cases he : parentDir path = path
    · simp [watchParentsFuel, he]
    · have hne : path ≠ [] := by
        intro h0
        rw [h0] at he
        exact he rfl
      have hpos : 0 < path.length := List.length_pos.mpr hne
      have hlen : (parentDir path).length < n := by
        have hdl : (parentDir path).length = path.length - 1 := by
          simp [parentDir, List.length_dropLast]
        omega
      have hs := ih (parentDir path) hlen
      obtain ⟨r, hr⟩ := Option.isSome_iff_exists.mp hs
      simp [watchParentsFuel, he, hr]

/-- C8: given that the filesystem root exists as a directory, the
upward walk of watchLocation terminates within length-many steps for
every path (returning an existing directory), and the
ancestor-registration walk of watchParents terminates for every
path. -/
theorem watch_walks_terminate :
    (∀ (dirs : List String → Bool) (p : List String), dirs [] = true →
      (watchLocation dirs p).isSome = true) ∧
    (∀ p : List String, (watchParents p).isSome = true) ∧
    (∀ (dirs : List String → Bool) (p a c : List String),
      watchLocation dirs p = some (a, c) → dirs a = true) := by
  refine ⟨?_, ?_, ?_⟩
  · intro dirs p h
    rw [watchLocation]
    exact watchLocationFuel_total dirs h (p.length + 1) p p (by omega)
  · intro p
    rw [watchParents]
    exact watchParentsFuel_total (p.length + 1) p (by omega)
  · intro dirs p a c h
    have h2 : watchLocationFuel dirs (p.length + 1) (p.take p.length) p = some (a, c) := by
      rw [List.take_length]
      exact h
    obtain ⟨j, _, _, hda, _, _⟩ := watchLocationFuel_spec dirs p (p.length + 1)
      p.length p a c (le_refl _) (Or.inl ⟨rfl, rfl⟩) h2
    exact hda

/-- C8 witness: both walks terminate on concrete paths with every
location a directory. -/
theorem watch_walks_terminate_witness :
    (watchLocation (fun _ => true) ["a", "b"]).isSome = true ∧
    (watchParents ["a", "b", "c"]).isSome = true ∧
    (fun _ : List String => true) ["a", "b"] = true :=
  ⟨watch_walks_terminate.1 (fun _ => true) ["a", "b"] rfl,
   watch_walks_terminate.2.1 ["a", "b", "c"],
   watch_walks_terminate.2.2 (fun _ => true) ["a", "b"] ["a", "b"] ["a", "b"] rfl⟩
